import Mathlib

set_option maxHeartbeats 1000000

/-!
Verification of the gospec-cli extraction-and-conversion pipeline.

This file embeds, in Lean, the core of the gospec-cli repository:
the Cobra framework extractor (`pkg/cobra`, function `parseCommand` and
friends), the intermediate data model (`pkg/parser`), and the conversion
engine (`pkg/converter`, function `Convert` and friends).  Go strings are
modelled as Lean `String`, Go slices as `List`, Go maps as association
lists with overwrite-on-insert semantics (`goInsert` below), nullable
pointers that the code dereferences unconditionally as `Option`, and the
`int` sentinel values used for arities as `Int`.  Each Go standard-library
string helper the code calls is reproduced at the character-list level so
that its behaviour can be reasoned about directly.
-/

/- ------------------------------------------------------------------ -/
/- Go standard-library string helpers, modelled over `List Char`.     -/
/- ------------------------------------------------------------------ -/

/-- Core of `strings.Split` restricted to a character predicate: splits a
character list at every character satisfying `p`, keeping empty groups,
exactly as Go does for a one-character separator. -/
def goSplitP (p : Char → Bool) : List Char → List (List Char)
  | [] => [[]]
  | c :: rest =>
    match goSplitP p rest with
    | [] => [[c]]
    | g :: gs => if p c then [] :: g :: gs else (c :: g) :: gs

/-- Go `strings.Split(s, sep)` for a one-character separator. -/
def goSplit (s : String) (sep : Char) : List String :=
  (goSplitP (fun c => c == sep) s.data).map List.asString

/-- Go `strings.Fields`: split on whitespace runs, dropping empty groups. -/
def goFields (s : String) : List String :=
  ((goSplitP Char.isWhitespace s.data).filter (fun g => !g.isEmpty)).map List.asString

/-- Whether the first character list starts the second. -/
def listStartsWith : List Char → List Char → Bool
  | [], _ => true
  | _ :: _, [] => false
  | a :: as, b :: bs => a == b && listStartsWith as bs

/-- Whether the first character list occurs contiguously in the second. -/
def listHasSeq (sub : List Char) : List Char → Bool
  | [] => listStartsWith sub []
  | c :: rest => listStartsWith sub (c :: rest) || listHasSeq sub rest

/-- Go `strings.Contains`. -/
def goContains (s substr : String) : Bool := listHasSeq substr.data s.data

/-- Go `strings.HasPrefix`. -/
def goStartsWith (s pre : String) : Bool := listStartsWith pre.data s.data

/-- Go `strings.Trim(s, cutset)` for a one-character cutset. -/
def goTrimChar (s : String) (c0 : Char) : String :=
  (((s.data.dropWhile (fun c => c == c0)).reverse.dropWhile (fun c => c == c0)).reverse).asString

/-- Go `strings.TrimSpace` (ASCII whitespace model). -/
def goTrimSpace (s : String) : String :=
  (((s.data.dropWhile Char.isWhitespace).reverse.dropWhile Char.isWhitespace).reverse).asString

/-- Go `strings.ToLower` (ASCII model). -/
def goToLower (s : String) : String := (s.data.map Char.toLower).asString

/-- Word separator as used by Go `strings.Title`: anything but an ASCII
alphanumeric or underscore. -/
def goIsSeparator (c : Char) : Bool := !(c.isAlphanum || c == '_')

/-- Character-level core of Go `strings.Title`: upper-case every character
that follows a separator (the previous character starts out as a space). -/
def goTitleCore : Bool → List Char → List Char
  | _, [] => []
  | prevSep, c :: cs => (if prevSep then c.toUpper else c) :: goTitleCore (goIsSeparator c) cs

/-- Go `strings.Title` (ASCII model; Unicode title case coincides with
upper case on ASCII letters). -/
def goTitle (s : String) : String := (goTitleCore true s.data).asString

/-- Go map insertion on an association-list model: overwrite the key if it
is present, append it otherwise.  Keys stay unique. -/
def goInsert {α : Type} (m : List (String × α)) (k : String) (v : α) : List (String × α) :=
  (m.filter (fun e => !(e.1 == k))) ++ [(k, v)]

/-- A Go map built from a sequence of insertions. -/
def goMapOfList {α : Type} (l : List (String × α)) : List (String × α) :=
  l.foldl (fun m e => goInsert m e.1 e.2) []

/-- Go map lookup on the association-list model. -/
def goLookup {α : Type} (m : List (String × α)) (k : String) : Option α :=
  (m.find? (fun e => e.1 == k)).map Prod.snd

/- ------------------------------------------------------------------ -/
/- Extension-bag values (Go `map[string]interface{}`).                 -/
/- ------------------------------------------------------------------ -/

/-- Values the pipeline stores in its `map[string]interface{}` extension
bags: strings, booleans and string lists are the only kinds used. -/
inductive GoValue where
  | str : String → GoValue
  | bool : Bool → GoValue
  | strList : List String → GoValue
deriving DecidableEq

/- ------------------------------------------------------------------ -/
/- The Cobra source tree, as consumed by pkg/cobra (types.go).         -/
/- ------------------------------------------------------------------ -/

/-- A `pflag.Flag` as read by the extractor: name, shorthand, usage,
value-type name (`flag.Value.Type()`), textual default (`flag.DefValue`),
the `Changed` bit, visibility data and the annotation bag
(`map[string][]string`). -/
structure PFlag where
  name : String
  shorthand : String
  usage : String
  typeName : String
  defValue : String
  changed : Bool
  hidden : Bool
  deprecated : String
  annots : List (String × List String)
deriving DecidableEq

/-- The fields of a `cobra.Command` that `parseCommand` reads.
`argsValidator` stands for the `Args` field: `none` models a nil
validator, `some s` a validator whose reflected type name is `s`
(`reflect.TypeOf(cmd.Args).String()`).  Since `Args` has the named
function type `cobra.PositionalArgs`, Go reflection reports that static
type name for every non-nil validator, so the only realizable non-`none`
value is `some "cobra.PositionalArgs"`.  The subcommand list lives in
`CobraCommand` below. -/
structure CobraData where
  use : String
  short : String
  long : String
  exampleText : String
  version : String
  deprecated : String
  aliases : List String
  suggestFor : List String
  hidden : Bool
  hasRun : Bool
  annots : List (String × String)
  flags : List PFlag
  persistentFlags : List PFlag
  validArgs : List String
  argsValidator : Option String
deriving DecidableEq

/-- A `cobra.Command`: its own data plus the list returned by
`cmd.Commands()`. -/
inductive CobraCommand where
  | node : CobraData → List CobraCommand → CobraCommand

/-- Own data of a Cobra command. -/
def CobraCommand.data : CobraCommand → CobraData
  | .node d _ => d

/-- Subcommand list of a Cobra command (`cmd.Commands()`). -/
def CobraCommand.subs : CobraCommand → List CobraCommand
  | .node _ s => s

/-- `cobra.Command.Name()`: the usage string up to the first space. -/
def cobraName (use : String) : String :=
  (use.data.takeWhile (fun c => !(c == ' '))).asString

/- ------------------------------------------------------------------ -/
/- The Intermediate Model (pkg/parser).                                -/
/- ------------------------------------------------------------------ -/

/-- `parser.FlagInfo`. -/
structure FlagInfo where
  name : String
  shorthand : String
  usage : String
  typeName : String
  defaultValue : String
  required : Bool
  hidden : Bool
  deprecated : String
  persistent : Bool
  validValues : List String
  annots : List (String × String)
deriving DecidableEq

/-- `parser.ArgumentInfo`.  `maxArgs = -1` is the unbounded sentinel. -/
structure ArgumentInfo where
  name : String
  description : String
  position : Int
  required : Bool
  typeName : String
  minArgs : Int
  maxArgs : Int
  validValues : List String
deriving DecidableEq

/-- `parser.CommandInfo`.  The Go struct additionally carries a non-owning
`Parent` back-pointer and an owned `Subcommands` slice; both encode the
tree shape, which in this embedding lives in `CobraCommand` and in the
recursion of `parseSubtree`.  The converter only ever reads the fields
below (it walks the flat `Commands` map, never the tree links). -/
structure CommandInfo where
  name : String
  path : String
  use : String
  short : String
  long : String
  exampleText : String
  version : String
  aliases : List String
  flags : List FlagInfo
  args : List ArgumentInfo
  persistentFlags : List FlagInfo
  hidden : Bool
  deprecated : String
  runFunc : Bool
  annots : List (String × String)
  tags : List String
  extensions : List (String × GoValue)
deriving DecidableEq

/-- `parser.EnvVarInfo`. -/
structure EnvVarInfo where
  name : String
  description : String
  required : Bool
  defaultVal : String
deriving DecidableEq

/-- `parser.PlatformInfo`. -/
structure PlatformInfo where
  os : String
  architectures : List String
deriving DecidableEq

/-- `parser.TagInfo`. -/
structure TagInfo where
  name : String
  description : String
deriving DecidableEq

/-- `parser.CLIMetadata`. -/
structure CLIMetadata where
  name : String
  version : String
  description : String
  author : String
  license : String
  homepage : String
  repository : String
  envVars : List EnvVarInfo
  platforms : List PlatformInfo
  tags : List TagInfo
deriving DecidableEq

/-- `parser.ParsedCLI`.  `Metadata` is a `*CLIMetadata` in Go and the
converter dereferences it unconditionally, so it is an `Option` here;
`Commands` is a Go map modelled as a key-unique association list. -/
structure ParsedCLI where
  rootCommand : CommandInfo
  commands : List (String × CommandInfo)
  metadata : Option CLIMetadata
  frameworkData : List (String × GoValue)
deriving DecidableEq

/- ------------------------------------------------------------------ -/
/- The Cobra extractor (pkg/cobra, types.go).                          -/
/- ------------------------------------------------------------------ -/

/-- Go map lookup in a `map[string][]string` annotation bag. -/
def annsLookup (l : List (String × List String)) (k : String) : Option (List String) :=
  (l.find? (fun e => e.1 == k)).map Prod.snd

/-- Go map lookup in a `map[string]string` annotation bag. -/
def annLookup (l : List (String × String)) (k : String) : Option String :=
  (l.find? (fun e => e.1 == k)).map Prod.snd

/-- `isRequiredFlag`: the flag has a "required" annotation key. -/
def isRequiredFlag (f : PFlag) : Bool := (annsLookup f.annots "required").isSome

/-- `extractValidValues`: comma-split the first "validValues" annotation. -/
def extractValidValues (f : PFlag) : List String :=
  match annsLookup f.annots "validValues" with
  | some (v :: _) => goSplit v ','
  | _ => []

/-- The annotation conversion at the top of `parseFlag`: keep the first
value of every `map[string][]string` entry that has one. -/
def flattenAnnots (l : List (String × List String)) : List (String × String) :=
  l.filterMap (fun e => e.2.head?.map (fun v => (e.1, v)))

/-- `CobraParser.parseFlag`. -/
def parseFlag (f : PFlag) (persistent : Bool) : FlagInfo :=
  { name := f.name
    shorthand := f.shorthand
    usage := f.usage
    typeName := f.typeName
    defaultValue := f.defValue
    required := isRequiredFlag f
    hidden := f.hidden
    deprecated := f.deprecated
    persistent := persistent
    validValues := extractValidValues f
    annots := flattenAnnots f.annots }

/-- The local-flag loop of `parseCommand`: a flag from `cmd.Flags()` is
skipped exactly when it is unchanged and a persistent flag of the same
name exists (`!flag.Changed && cmd.PersistentFlags().Lookup(...) != nil`). -/
def localFlagInfos (flags persistentFlags : List PFlag) : List FlagInfo :=
  (flags.filter (fun f => f.changed || !(persistentFlags.any (fun g => g.name == f.name)))).map
    (fun f => parseFlag f false)

/-- `inferArgsArity`: best-effort arity from the validator's reflected
type name, via the `strings.Contains` switch of types.go. -/
def inferArgsArity (argsValidator : Option String) : Int × Int :=
  match argsValidator with
  | none => (0, -1)
  | some argsName =>
    if goContains argsName "NoArgs" then (0, 0)
    else if goContains argsName "ExactArgs" then (1, 1)
    else if goContains argsName "MinimumNArgs" then (1, -1)
    else if goContains argsName "MaximumNArgs" then (0, 1)
    else if goContains argsName "RangeArgs" then (1, -1)
    else (0, -1)

/-- `CobraParser.parseArguments`. -/
def parseArguments (d : CobraData) : List ArgumentInfo :=
  if d.validArgs.length > 0 then
    (d.validArgs.enum).map (fun iv =>
      { name := iv.2
        description := ""
        position := (iv.1 : Int) + 1
        required := true
        typeName := "string"
        minArgs := 0
        maxArgs := 0
        validValues := [iv.2] })
  else
    match d.argsValidator with
    | none => []
    | some _ =>
      let arity := inferArgsArity d.argsValidator
      if arity.1 > 0 || arity.2 > 0 then
        let argName :=
          if !(d.use == "") then (goFields d.use).getD 1 "args" else "args"
        [{ name := argName
           description := ""
           position := 1
           required := arity.1 > 0
           typeName := "string"
           minArgs := arity.1
           maxArgs := arity.2
           validValues := [] }]
      else []

/-- `extractTags`: comma-split and trim the "tags" annotation. -/
def extractTags (annots : List (String × String)) : List String :=
  match annLookup annots "tags" with
  | some tagStr => (goSplit tagStr ',').map goTrimSpace
  | none => []

/-- The path construction at the top of `parseCommand`: a named node under
an empty parent path takes its bare name, an unnamed node keeps the
parent path, and otherwise the name is appended after a `/`. -/
def buildPath (parentPath name : String) : String :=
  if !(name == "") then
    (if parentPath == "" then name else parentPath ++ "/" ++ name)
  else parentPath

/-- `CobraParser.parseCommand` (minus the `Parent` back-pointer and the
`Subcommands` slice, which `parseSubtree` below realizes structurally). -/
def parseCommand (d : CobraData) (parentPath : String) : CommandInfo :=
  let name := cobraName d.use
  { name := name
    path := buildPath parentPath name
    use := d.use
    short := d.short
    long := d.long
    exampleText := d.exampleText
    version := d.version
    aliases := d.aliases
    flags := localFlagInfos d.flags d.persistentFlags
    args := parseArguments d
    persistentFlags := d.persistentFlags.map (fun f => parseFlag f true)
    hidden := d.hidden
    deprecated := d.deprecated
    runFunc := d.hasRun
    annots := d.annots
    tags := extractTags d.annots
    extensions :=
      [("cobra_use", GoValue.str d.use),
       ("cobra_suggest_for", GoValue.strList d.suggestFor),
       ("cobra_args_validator", GoValue.bool d.argsValidator.isSome)] ++
      (if d.validArgs.isEmpty then []
       else [("cobra_valid_args", GoValue.strList d.validArgs)]) }

mutual

/-- The insertion sequence into the flat `Commands` map produced by
`Parse`/`parseSubcommands` for the subtree `c` parsed under `parentPath`:
the node itself first, then each subcommand's subtree in traversal
order (the code inserts `info` and recurses before the next sibling). -/
def parseSubtree : CobraCommand → String → List (String × CommandInfo)
  | .node d subs, parentPath =>
    let info := parseCommand d parentPath
    (info.path, info) :: parseForest subs info.path

/-- `parseSubcommands`: the insertion sequences of a subcommand list. -/
def parseForest : List CobraCommand → String → List (String × CommandInfo)
  | [], _ => []
  | c :: cs, parentPath => parseSubtree c parentPath ++ parseForest cs parentPath

end

/-- `CobraParser.extractMetadata`, applied to the root node (`Parse`
hands it the same command object it was given; a `CobraCommand` value has
no parent, so the climb-to-root loop is a no-op). -/
def extractMetadata (c : CobraCommand) : CLIMetadata :=
  let d := c.data
  { name := cobraName d.use
    version := d.version
    description := d.long
    author := (annLookup d.annots "author").getD ""
    license := (annLookup d.annots "license").getD ""
    homepage := (annLookup d.annots "homepage").getD ""
    repository := (annLookup d.annots "repository").getD ""
    envVars := []
    platforms := []
    tags := [] }

/-- `CobraParser.Parse` on an in-memory Cobra tree (the `Supports` type
probe is a Go-interface artifact with no content in a typed embedding). -/
def Parse (c : CobraCommand) : ParsedCLI :=
  { rootCommand := parseCommand c.data ""
    commands := goMapOfList (parseSubtree c "")
    metadata := some (extractMetadata c)
    frameworkData := [("framework", GoValue.str "cobra"), ("version", GoValue.str "1.8.0")] }

example : cobraName "user create" = "user" := by decide
example : goSplit "a,,b" ',' = ["a", "", "b"] := by decide
example : goSplit "" ',' = [""] := by decide
example : goFields "user create [name]" = ["user", "create", "[name]"] := by decide
example : goTitle "create" = "Create" := by decide
example : buildPath "" "app" = "app" := by decide
example : buildPath "app" "user" = "app/user" := by decide
example : buildPath "app" "" = "app" := by decide

/- ------------------------------------------------------------------ -/
/- The Output Specification Model (pkg/spec, types.go).                -/
/- ------------------------------------------------------------------ -/

/-- `spec.Contact` (the converter only ever fills name and url). -/
structure Contact where
  name : String
  url : String
  email : String
deriving DecidableEq

/-- `spec.License`. -/
structure License where
  name : String
  url : String
deriving DecidableEq

/-- `spec.Info`. -/
structure Info where
  title : String
  description : String
  version : String
  contact : Option Contact
  license : Option License
deriving DecidableEq

/-- `spec.Tag` (the converter never sets `ExternalDocs`). -/
structure SpecTag where
  name : String
  description : String
deriving DecidableEq

/-- `spec.EnvironmentVariable`. -/
structure SpecEnvVar where
  name : String
  description : String
  required : Bool
  defaultVal : String
deriving DecidableEq

/-- `spec.Platform`. -/
structure SpecPlatform where
  name : String
  architectures : List String
deriving DecidableEq

/-- `spec.Schema` (only the fields the converter writes: type, default
and enum; the enum entries it stores are strings). -/
structure Schema where
  typeName : String
  enum : List String
  defaultVal : Option String
deriving DecidableEq

/-- `spec.Arity`: `max = none` means unlimited. -/
structure Arity where
  min : Int
  max : Option Int
deriving DecidableEq

/-- `spec.Parameter`.  `inKind` is the Go field `In` (flag vs argument). -/
structure Parameter where
  name : String
  inKind : String
  aliasList : List String
  description : String
  required : Bool
  scope : String
  position : Int
  schema : Option Schema
  arity : Option Arity
  deprecated : Bool
  hidden : Bool
deriving DecidableEq

/-- `spec.MediaType` (the converter only sets the example). -/
structure MediaType where
  exampleText : String
deriving DecidableEq

/-- `spec.Response`. -/
structure Response where
  description : String
  content : List (String × MediaType)
deriving DecidableEq

/-- `spec.Command`. -/
structure SpecCommand where
  summary : String
  description : String
  operationID : String
  aliases : List String
  tags : List String
  parameters : List Parameter
  responses : List (String × Response)
  deprecated : Bool
  hidden : Bool
  extensions : List (String × GoValue)
deriving DecidableEq

/-- `spec.Components`. -/
structure Components where
  schemas : List (String × Schema)
  parameters : List (String × Parameter)
  responses : List (String × Response)
deriving DecidableEq

/-- `spec.OpenCLISpec`. -/
structure OpenCLISpec where
  openCLI : String
  info : Info
  platforms : List SpecPlatform
  environment : List SpecEnvVar
  tags : List SpecTag
  commands : List (String × SpecCommand)
  components : Option Components
deriving DecidableEq

/-- `parser.ConvertOptions`.  `CustomInfo` is a nullable pointer. -/
structure ConvertOptions where
  specVersion : String
  includeHidden : Bool
  includeDeprecated : Bool
  generateOperationIDs : Bool
  inferResponses : Bool
  customInfo : Option Info
  tagStrategy : String
  extractComponents : Bool
deriving DecidableEq

/- ------------------------------------------------------------------ -/
/- The conversion engine (pkg/converter, converter.go).                -/
/- ------------------------------------------------------------------ -/

/-- `DefaultConvertOptions`. -/
def DefaultConvertOptions : ConvertOptions :=
  { specVersion := "1.0.0"
    includeHidden := false
    includeDeprecated := true
    generateOperationIDs := true
    inferResponses := true
    customInfo := none
    tagStrategy := "auto"
    extractComponents := true }

/-- `mapTypeToSchemaType`: the fixed type-tag lookup. -/
def mapTypeToSchemaType (typeName : String) : String :=
  let t := goToLower typeName
  if t == "bool" || t == "boolean" then "boolean"
  else if t == "int" || t == "int8" || t == "int16" || t == "int32" || t == "int64"
       || t == "uint" || t == "uint8" || t == "uint16" || t == "uint32" || t == "uint64" then "integer"
  else if t == "float" || t == "float32" || t == "float64" then "number"
  else if t == "string" then "string"
  else if t == "duration" then "string"
  else if t == "stringslice" || t == "[]string" then "array"
  else "string"

/-- `generateOperationID`: trim separators off the path, split it,
concatenate the first segment with the title-cased rest, and append
`"Command"`; an empty segment list would give the constant
`"rootCommand"`. -/
def generateOperationID (cmdInfo : CommandInfo) : String :=
  let parts := goSplit (goTrimChar cmdInfo.path '/') '/'
  if parts.length == 0 then "rootCommand"
  else ((parts.drop 1).foldl (fun acc part => acc ++ goTitle part) (parts.headD "")) ++ "Command"

/-- `createSchema`. -/
def createSchema (typeName : String) (defaultValue : Option String)
    (validValues : List String) : Schema :=
  { typeName := mapTypeToSchemaType typeName
    enum := validValues
    defaultVal := defaultValue }

/-- `DefaultConverter.convertFlag`. -/
def convertFlag (flag : FlagInfo) (scope : String) : Parameter :=
  { name := flag.name
    inKind := "flag"
    aliasList := if !(flag.shorthand == "") then [flag.shorthand] else []
    description := flag.usage
    required := flag.required
    scope := scope
    position := 0
    schema := some (createSchema flag.typeName (some flag.defaultValue) flag.validValues)
    arity := none
    deprecated := !(flag.deprecated == "")
    hidden := flag.hidden }

/-- `DefaultConverter.convertArgument`. -/
def convertArgument (arg : ArgumentInfo) : Parameter :=
  { name := arg.name
    inKind := "argument"
    aliasList := []
    description := arg.description
    required := arg.required
    scope := "local"
    position := arg.position
    schema := some (createSchema arg.typeName none arg.validValues)
    arity :=
      if arg.minArgs > 0 || !(arg.maxArgs == 0) then
        some { min := arg.minArgs
               max := if arg.maxArgs > 0 then some arg.maxArgs else none }
      else none
    deprecated := false
    hidden := false }

/-- `generateDefaultResponses`: the two fixed exit-code responses. -/
def generateDefaultResponses : List (String × Response) :=
  [("0", { description := "Command executed successfully"
           content := [("text/plain", { exampleText := "Operation completed successfully" })] }),
   ("1", { description := "Command execution failed"
           content := [("text/plain", { exampleText := "Error: operation failed" })] })]

/-- `DefaultConverter.convertCommand`. -/
def convertCommand (cmdInfo : CommandInfo) (options : ConvertOptions) : SpecCommand :=
  { summary := cmdInfo.short
    description := cmdInfo.long
    operationID := if options.generateOperationIDs then generateOperationID cmdInfo else ""
    aliases := cmdInfo.aliases
    tags := cmdInfo.tags
    parameters :=
      ((cmdInfo.flags.filter (fun f => options.includeHidden || !f.hidden)).map
        (fun f => convertFlag f "local")) ++
      ((cmdInfo.persistentFlags.filter (fun f => options.includeHidden || !f.hidden)).map
        (fun f => convertFlag f "inherited")) ++
      (cmdInfo.args.map convertArgument)
    responses := if options.inferResponses then generateDefaultResponses else []
    deprecated := !(cmdInfo.deprecated == "")
    hidden := cmdInfo.hidden
    extensions := cmdInfo.extensions }

/-- `DefaultConverter.convertInfo`. -/
def convertInfo (metadata : CLIMetadata) (options : ConvertOptions) : Info :=
  match options.customInfo with
  | some ci => ci
  | none =>
    { title := metadata.name
      description := metadata.description
      version := metadata.version
      contact :=
        if !(metadata.author == "") || !(metadata.homepage == "") then
          some { name := metadata.author, url := metadata.homepage, email := "" }
        else none
      license :=
        if !(metadata.license == "") then some { name := metadata.license, url := "" }
        else none }

/-- `DefaultConverter.convertTags`. -/
def convertTags (tags : List TagInfo) : List SpecTag :=
  tags.map (fun t => { name := t.name, description := t.description })

/-- `DefaultConverter.convertEnvironment`. -/
def convertEnvironment (envVars : List EnvVarInfo) : List SpecEnvVar :=
  envVars.map (fun e =>
    { name := e.name, description := e.description, required := e.required
      defaultVal := e.defaultVal })

/-- `DefaultConverter.convertPlatforms`. -/
def convertPlatforms (platforms : List PlatformInfo) : List SpecPlatform :=
  platforms.map (fun p => { name := p.os, architectures := p.architectures })

/-- The output-map key computed inside `Convert`'s command loop: prefix a
`/` unless the path already starts with one or equals the command name;
a command whose map path equals its name keeps the bare name. -/
def convertKey (path name : String) : String :=
  let key := if !(goStartsWith path "/") && !(path == name) then "/" ++ path else path
  if path == name then name else key

/-- Whether `Convert`'s command loop skips a command outright. -/
def skipCommand (cmdInfo : CommandInfo) (options : ConvertOptions) : Bool :=
  (!options.includeHidden && cmdInfo.hidden) ||
  (!options.includeDeprecated && !(cmdInfo.deprecated == ""))

/-- The command loop of `Convert`: walk the flat map, skip hidden and
deprecated commands by policy, and insert the converted command under
its computed key. -/
def convertCommandsMap (cmds : List (String × CommandInfo)) (options : ConvertOptions) :
    List (String × SpecCommand) :=
  cmds.foldl
    (fun acc e =>
      if skipCommand e.2 options then acc
      else goInsert acc (convertKey e.1 e.2.name) (convertCommand e.2 options))
    []

/-- The number of local-flag occurrences of name `n` across a flag list
(the `paramCounts` tally of `extractComponents`). -/
def countName (flags : List FlagInfo) (n : String) : Nat :=
  (flags.filter (fun f => f.name == n)).length

/-- `DefaultConverter.extractComponents`: count local-flag occurrences by
name over every command of the flat map, lift the first occurrence of
every name seen more than once, and always add the two fixed generic
responses. -/
def extractComponents (parsed : ParsedCLI) (_options : ConvertOptions) : Components :=
  let allFlags := (parsed.commands.map (fun e => e.2.flags)).flatten
  let names := (allFlags.map (fun f => f.name)).dedup
  { schemas := []
    parameters :=
      names.filterMap (fun n =>
        if countName allFlags n > 1 then
          (allFlags.find? (fun f => f.name == n)).map (fun f => (n, convertFlag f "local"))
        else none)
    responses :=
      [("Success", { description := "Operation completed successfully"
                     content := [("text/plain", { exampleText := "Success" })] }),
       ("Error", { description := "Operation failed"
                   content := [("text/plain", { exampleText := "Error: operation failed" })] })] }

/-- Failure modes of `Convert`: the guarded nil-input error, and the Go
runtime panic raised when the non-nil input's `Metadata` pointer is nil
(`parsed.Metadata` is dereferenced unconditionally). -/
inductive ConvertError where
  | invalidInput
  | nilMetadataPanic
deriving DecidableEq

/-- `DefaultConverter.Convert`. -/
def Convert (parsed : Option ParsedCLI) (options : Option ConvertOptions) :
    Except ConvertError OpenCLISpec :=
  match parsed with
  | none => .error .invalidInput
  | some p =>
    let opts := options.getD DefaultConvertOptions
    match p.metadata with
    | none => .error .nilMetadataPanic
    | some md =>
      .ok
        { openCLI := opts.specVersion
          info := convertInfo md opts
          tags := if md.tags.length > 0 then convertTags md.tags else []
          environment := if md.envVars.length > 0 then convertEnvironment md.envVars else []
          platforms := if md.platforms.length > 0 then convertPlatforms md.platforms else []
          commands := convertCommandsMap p.commands opts
          components := if opts.extractComponents then some (extractComponents p opts) else none }

/-- A blank `CommandInfo`, used as a base for concrete samples. -/
def blankInfo : CommandInfo :=
  { name := "", path := "", use := "", short := "", long := "", exampleText := "",
    version := "", aliases := [], flags := [], args := [], persistentFlags := [],
    hidden := false, deprecated := "", runFunc := false, annots := [], tags := [],
    extensions := [] }

example : generateOperationID { blankInfo with name := "create", path := "testapp/user/create" }
    = "testappUserCreateCommand" := by decide
example : mapTypeToSchemaType "stringSlice" = "array" := by decide
example : convertKey "app/user" "user" = "/app/user" := by decide
example : convertKey "app" "app" = "app" := by decide

/- ------------------------------------------------------------------ -/
/- Small facts about the embedded definitions.                         -/
/- ------------------------------------------------------------------ -/

@[simp] lemma parseFlag_name (f : PFlag) (b : Bool) : (parseFlag f b).name = f.name := rfl

@[simp] lemma parseFlag_hidden (f : PFlag) (b : Bool) : (parseFlag f b).hidden = f.hidden := rfl

@[simp] lemma parseCommand_name (d : CobraData) (pp : String) :
    (parseCommand d pp).name = cobraName d.use := rfl

@[simp] lemma parseCommand_path (d : CobraData) (pp : String) :
    (parseCommand d pp).path = buildPath pp (cobraName d.use) := rfl

@[simp] lemma parseCommand_flags (d : CobraData) (pp : String) :
    (parseCommand d pp).flags = localFlagInfos d.flags d.persistentFlags := rfl

@[simp] lemma parseCommand_persistentFlags (d : CobraData) (pp : String) :
    (parseCommand d pp).persistentFlags = d.persistentFlags.map (fun f => parseFlag f true) := rfl

@[simp] lemma parseCommand_args (d : CobraData) (pp : String) :
    (parseCommand d pp).args = parseArguments d := rfl

@[simp] lemma convertFlag_name (f : FlagInfo) (s : String) : (convertFlag f s).name = f.name := rfl

@[simp] lemma convertFlag_inKind (f : FlagInfo) (s : String) : (convertFlag f s).inKind = "flag" := rfl

@[simp] lemma convertFlag_scope (f : FlagInfo) (s : String) : (convertFlag f s).scope = s := rfl

@[simp] lemma convertArgument_inKind (a : ArgumentInfo) :
    (convertArgument a).inKind = "argument" := rfl

lemma buildPath_empty_parent (n : String) : buildPath "" n = n := by
  by_cases hn : n = "" <;> simp [buildPath, hn]

lemma buildPath_of_ne (q n : String) (hn : ¬ n = "") (hq : ¬ q = "") :
    buildPath q n = q ++ "/" ++ n := by
  simp [buildPath, hn, hq]

lemma string_eq_of_data (s t : String) (h : s.data = t.data) : s = t := by
  cases s; cases t; simp_all

lemma string_data_ne_nil (s : String) (h : s.data ≠ []) : s ≠ "" := by
  intro hs; apply h; rw [hs]

lemma buildPath_ne_empty (q n : String) (hn : ¬ n = "") : buildPath q n ≠ "" := by
  by_cases hq : q = ""
  · subst hq; rw [buildPath_empty_parent]; exact hn
  · rw [buildPath_of_ne q n hn hq]
    apply string_data_ne_nil
    simp [String.data_append]

/-- `goSplitP` never returns the empty list of groups. -/
lemma goSplitP_ne_nil (p : Char → Bool) (l : List Char) : goSplitP p l ≠ [] := by
  cases l with
  | nil => simp [goSplitP]
  | cons c rest =>
    rw [goSplitP]
    cases h : goSplitP p rest with
    | nil => simp
    | cons g gs => dsimp; split <;> simp

lemma goSplit_ne_nil (s : String) (sep : Char) : goSplit s sep ≠ [] := by
  unfold goSplit
  simpa using goSplitP_ne_nil (fun c => c == sep) s.data

/-- Splitting a separator-free list yields that list as the only group. -/
lemma goSplitP_of_no_sep (p : Char → Bool) (l : List Char) (h : ∀ c ∈ l, p c = false) :
    goSplitP p l = [l] := by
  induction l with
  | nil => rfl
  | cons c rest ih =>
    have hr := ih (fun x hx => h x (List.mem_cons_of_mem _ hx))
    rw [goSplitP, hr]
    simp [h c (List.mem_cons_self _ _)]

@[simp] lemma asString_data (l : List Char) : (List.asString l).data = l := rfl

@[simp] lemma data_asString (s : String) : s.data.asString = s := rfl

lemma dropWhile_of_all_false (p : Char → Bool) (l : List Char) (h : ∀ c ∈ l, p c = false) :
    l.dropWhile p = l := by
  cases l with
  | nil => rfl
  | cons c rest => simp [List.dropWhile, h c (by simp)]

lemma goTrimChar_of_no_occ (s : String) (c0 : Char) (h : ∀ c ∈ s.data, (c == c0) = false) :
    goTrimChar s c0 = s := by
  apply string_eq_of_data
  simp only [goTrimChar]
  rw [dropWhile_of_all_false _ _ h,
      dropWhile_of_all_false _ _ (fun c hc => h c (by simpa using hc))]
  simp only [List.reverse_reverse, asString_data]

lemma listStartsWith_single_false (a : Char) (l : List Char) (h : l.head? ≠ some a) :
    listStartsWith [a] l = false := by
  cases l with
  | nil => rfl
  | cons c rest =>
    simp only [List.head?] at h
    simp [listStartsWith]
    intro hac
    exact absurd (by rw [hac]) h

/-- A failed one-character search means the character is absent. -/
lemma listHasSeq_single_false (a : Char) (l : List Char) (h : listHasSeq [a] l = false) :
    ∀ c ∈ l, (c == a) = false := by
  induction l with
  | nil => simp
  | cons c rest ih =>
    rw [listHasSeq, Bool.or_eq_false_iff] at h
    intro x hx
    rcases List.mem_cons.mp hx with rfl | hx'
    · have h1 := h.1
      simp [listStartsWith] at h1
      simp [beq_iff_eq]
      intro he; exact h1 (by rw [he])
    · exact ih h.2 x hx'

/- ------------------------------------------------------------------ -/
/- Claim C2: operation-identifier synthesis.                           -/
/- ------------------------------------------------------------------ -/

/-- The amended identifier rule actually implemented: first path segment
kept verbatim, every later segment title-cased, and the fixed suffix
`"Command"` appended.  The `"rootCommand"` constant would only be used
for an empty segment list, which splitting can never produce. -/
def amendedOperationID (path : String) : String :=
  match goSplit (goTrimChar path '/') '/' with
  | [] => "rootCommand"
  | p :: rest => p ++ (rest.map goTitle).foldr (fun a b => a ++ b) "" ++ "Command"

lemma foldl_title_append (l : List String) (acc : String) :
    l.foldl (fun a part => a ++ goTitle part) acc
      = acc ++ (l.map goTitle).foldr (fun a b => a ++ b) "" := by
  induction l generalizing acc with
  | nil => simp
  | cons x xs ih =>
    simp only [List.foldl_cons, List.map_cons, List.foldr_cons]
    rw [ih]
    apply string_eq_of_data
    simp [String.data_append, List.append_assoc]

/-- Claim C2 (counterexample): the synthesized identifier keeps the first
path segment verbatim instead of lower-casing it, and a root command
(path without separators) yields its own name followed by the suffix,
not one fixed constant: two distinct roots get two distinct identifiers. -/
theorem claim_C2_counterexample :
    generateOperationID { blankInfo with name := "alpha", path := "alpha" } = "alphaCommand" ∧
    generateOperationID { blankInfo with name := "beta", path := "beta" } = "betaCommand" ∧
    ¬ ("alphaCommand" : String) = "betaCommand" ∧
    generateOperationID { blankInfo with name := "add", path := "Admin/add" }
      = "AdminAddCommand" := by
  exact ⟨by decide, by decide, by decide, by decide⟩

/-- Claim C2 (amended): the identifier is the trimmed path's first
segment verbatim, followed by the title-cased remaining segments and the
suffix `"Command"`; a command whose path contains no separator gets its
bare path plus the suffix (so there is no fixed root constant). -/
theorem claim_C2_amended (info : CommandInfo) :
    generateOperationID info = amendedOperationID info.path ∧
    (goContains info.path "/" = false →
      generateOperationID info = info.path ++ "Command") := by
  have hmain : generateOperationID info = amendedOperationID info.path := by
    unfold generateOperationID amendedOperationID
    cases hsp : goSplit (goTrimChar info.path '/') '/' with
    | nil => exact absurd hsp (goSplit_ne_nil _ _)
    | cons p rest =>
      simp only [List.length_cons, List.headD_cons, List.drop_succ_cons, List.drop_zero]
      rw [if_neg (by simp)]
      rw [foldl_title_append]
  refine ⟨hmain, fun hnone => ?_⟩
  rw [hmain]
  unfold amendedOperationID
  have hchars : ∀ c ∈ info.path.data, (c == '/') = false :=
    listHasSeq_single_false '/' info.path.data (by simpa [goContains] using hnone)
  rw [goTrimChar_of_no_occ _ _ hchars]
  have hsplit : goSplit info.path '/' = [info.path] := by
    unfold goSplit
    rw [goSplitP_of_no_sep _ _ hchars]
    simp
  rw [hsplit]
  simp only [List.map_nil, List.foldr_nil]
  apply string_eq_of_data
  simp [String.data_append]

/-- Sample command used to witness Claim C2's amended theorem. -/
def c2SampleInfo : CommandInfo := { blankInfo with name := "tool", path := "tool" }

theorem claim_C2_witness :
    generateOperationID c2SampleInfo = c2SampleInfo.path ++ "Command" :=
  (claim_C2_amended c2SampleInfo).2 (by decide)

/- ------------------------------------------------------------------ -/
/- Claims C3 and C10: Convert's failure behaviour and nil options.     -/
/- ------------------------------------------------------------------ -/

/-- An intermediate model whose `Metadata` pointer is nil. -/
def noMetaCLI : ParsedCLI :=
  { rootCommand := blankInfo, commands := [], metadata := none, frameworkData := [] }

/-- Claim C3 (counterexample): a non-nil intermediate model whose
`Metadata` pointer is nil makes `Convert` fail (with the Go runtime's
nil-dereference panic, not with `InvalidInput`), refuting totality over
all non-nil models. -/
theorem claim_C3_counterexample :
    ¬ (some noMetaCLI = (none : Option ParsedCLI)) ∧
    Convert (some noMetaCLI) none = .error ConvertError.nilMetadataPanic := by
  exact ⟨by simp, rfl⟩

/-- Claim C3 (amended): `Convert` returns `InvalidInput` exactly on the
nil model, and completes without error on every non-nil model whose
`Metadata` pointer is non-nil, for every options value. -/
theorem claim_C3_amended (parsed : Option ParsedCLI) (options : Option ConvertOptions) :
    (Convert parsed options = .error ConvertError.invalidInput ↔ parsed = none) ∧
    (∀ p, parsed = some p → ∀ md, p.metadata = some md →
      (Convert parsed options).isOk = true) := by
  constructor
  · constructor
    · intro h
      cases parsed with
      | none => rfl
      | some p =>
        cases hm : p.metadata with
        | none => simp [Convert, hm] at h
        | some md => simp [Convert, hm] at h
    · rintro rfl; rfl
  · rintro p rfl md hm
    simp only [Convert, hm]
    rfl

/-- Sample well-formed model for the C3 witness. -/
def c3SampleCLI : ParsedCLI :=
  { rootCommand := blankInfo
    commands := [("app", { blankInfo with name := "app", path := "app" })]
    metadata := some { name := "app", version := "1.0.0", description := "", author := ""
                       license := "", homepage := "", repository := "", envVars := []
                       platforms := [], tags := [] }
    frameworkData := [] }

theorem claim_C3_witness :
    (Convert (some c3SampleCLI) none).isOk = true :=
  (claim_C3_amended (some c3SampleCLI) none).2 c3SampleCLI rfl
    { name := "app", version := "1.0.0", description := "", author := ""
      license := "", homepage := "", repository := "", envVars := []
      platforms := [], tags := [] } rfl

/-- A second nil-metadata model, with a command, for Claim C10. -/
def noMetaCLI2 : ParsedCLI :=
  { rootCommand := blankInfo
    commands := [("app", { blankInfo with name := "app", path := "app" })]
    metadata := none
    frameworkData := [] }

/-- Claim C10 (counterexample): with a nil options argument, `Convert`
still fails on a non-nil model whose `Metadata` pointer is nil, so "a
nil options argument does not fail" is not unconditional. -/
theorem claim_C10_counterexample :
    ¬ (some noMetaCLI2 = (none : Option ParsedCLI)) ∧
    Convert (some noMetaCLI2) none = .error ConvertError.nilMetadataPanic := by
  exact ⟨by simp, rfl⟩

/-- Claim C10 (amended): a nil options argument is replaced by the
default policy, so `Convert parsed nil = Convert parsed default` for
every model; the default policy is spec version "1.0.0", hidden items
excluded, deprecated items included, identifiers generated, responses
inferred, auto tag strategy, components extracted; and on every non-nil
model with non-nil `Metadata` the nil-options call completes without
error. -/
theorem claim_C10_amended (parsed : Option ParsedCLI) :
    Convert parsed none = Convert parsed (some DefaultConvertOptions) ∧
    DefaultConvertOptions =
      { specVersion := "1.0.0", includeHidden := false, includeDeprecated := true
        generateOperationIDs := true, inferResponses := true, customInfo := none
        tagStrategy := "auto", extractComponents := true } ∧
    (∀ p, parsed = some p → ∀ md, p.metadata = some md →
      (Convert parsed none).isOk = true) := by
  refine ⟨?_, rfl, ?_⟩
  · cases parsed <;> rfl
  · rintro p rfl md hm
    simp only [Convert, hm]
    rfl

theorem claim_C10_witness :
    Convert (some c3SampleCLI) none = Convert (some c3SampleCLI) (some DefaultConvertOptions) :=
  (claim_C10_amended (some c3SampleCLI)).1

/- ------------------------------------------------------------------ -/
/- Claim C7: arity inference from argument-count validators.           -/
/- ------------------------------------------------------------------ -/

/-- A blank `CobraData` record, base for concrete samples. -/
def blankData : CobraData :=
  { use := "", short := "", long := "", exampleText := "", version := "", deprecated := ""
    aliases := [], suggestFor := [], hidden := false, hasRun := false, annots := []
    flags := [], persistentFlags := [], validArgs := [], argsValidator := none }

/-- A node carrying a non-nil argument-count validator as Go reflection
actually reports it.  The `Args` field of a `cobra.Command` has the named
function type `cobra.PositionalArgs`; boxing a function value into
`interface{}` records its static type, so for every validator the code
can meet (`cobra.NoArgs`, `cobra.ExactArgs(n)`, `cobra.MinimumNArgs(n)`,
`cobra.MaximumNArgs(n)`, `cobra.RangeArgs(lo, hi)`, or any custom one)
`reflect.TypeOf(cmd.Args).String()` is the one string
`"cobra.PositionalArgs"`. -/
def c7SampleData : CobraData := { blankData with argsValidator := some "cobra.PositionalArgs" }

/-- Claim C7 (code divergence): the only reflected type name a non-nil
validator can produce, `"cobra.PositionalArgs"`, contains none of the
five markers the `inferArgsArity` switch tests, so the switch is dead
code: `inferArgsArity` returns the default `(0, -1)` for every
validator, and `parseArguments` synthesizes no positional argument at
all.  This agrees with the claim for the no-arguments validator (no
argument synthesized) but contradicts it for the exact-count,
minimum-only, maximum-only and range validators, each of which the claim
says yields one argument descriptor. -/
theorem claim_C7_divergence :
    (goContains "cobra.PositionalArgs" "NoArgs" = false ∧
     goContains "cobra.PositionalArgs" "ExactArgs" = false ∧
     goContains "cobra.PositionalArgs" "MinimumNArgs" = false ∧
     goContains "cobra.PositionalArgs" "MaximumNArgs" = false ∧
     goContains "cobra.PositionalArgs" "RangeArgs" = false) ∧
    inferArgsArity (some "cobra.PositionalArgs") = (0, -1) ∧
    parseArguments c7SampleData = [] := by
  exact ⟨⟨by decide, by decide, by decide, by decide, by decide⟩, by decide, by decide⟩

/- ------------------------------------------------------------------ -/
/- Claim C1: flags declared both local and persistent.                 -/
/- ------------------------------------------------------------------ -/

/-- A flag whose value is marked changed (`flag.Changed = true`),
declared both in a node's local flag set and in its persistent set. -/
def c1ChangedFlag : PFlag :=
  { name := "verbose", shorthand := "", usage := "", typeName := "bool", defValue := "false"
    changed := true, hidden := false, deprecated := "", annots := [] }

def c1DupData : CobraData :=
  { blankData with use := "app", flags := [c1ChangedFlag], persistentFlags := [c1ChangedFlag] }

theorem claim_C1_counterexample :
    ((parseCommand c1DupData "").flags.map FlagInfo.name = ["verbose"]) ∧
    ((parseCommand c1DupData "").persistentFlags.map FlagInfo.name = ["verbose"]) ∧
    (((convertCommand (parseCommand c1DupData "") DefaultConvertOptions).parameters.filter
        (fun p => p.name == "verbose" && p.inKind == "flag")).map Parameter.scope
      = ["local", "inherited"]) := by
  exact ⟨by decide, by decide, by decide⟩

lemma persistent_params_filter_nil (pfs : List PFlag) (opts : ConvertOptions) (n : String)
    (h : ∀ g ∈ pfs, (g.name == n) = false) :
    (((pfs.map (fun f => parseFlag f true)).filter
        (fun f => opts.includeHidden || !f.hidden)).map
        (fun f => convertFlag f "inherited")).filter
        (fun p => p.name == n && p.inKind == "flag") = [] := by
  rw [List.filter_map]
  apply List.map_eq_nil_iff.mpr
  apply List.filter_eq_nil_iff.mpr
  intro fi hfi
  rcases List.mem_filter.mp hfi with ⟨hfi0, _⟩
  rcases List.mem_map.mp hfi0 with ⟨g, hg, rfl⟩
  simp [h g hg]

lemma persistent_params_scope (pfs : List PFlag) (opts : ConvertOptions) (n : String)
    (hp : (pfs.filter (fun g => g.name == n)).length = 1)
    (hh : ∀ g ∈ pfs, g.name = n → g.hidden = false) :
    ((((pfs.map (fun f => parseFlag f true)).filter
        (fun f => opts.includeHidden || !f.hidden)).map
        (fun f => convertFlag f "inherited")).filter
        (fun p => p.name == n && p.inKind == "flag")).map Parameter.scope = ["inherited"] := by
  induction pfs with
  | nil => simp at hp
  | cons g gs ih =>
    by_cases hgn : (g.name == n) = true
    · have hghid : g.hidden = false := hh g (by simp) (by simpa using hgn)
      have hrest : gs.filter (fun g => g.name == n) = [] := by
        rw [List.filter_cons, if_pos hgn] at hp
        simp only [List.length_cons, Nat.add_left_eq_self] at hp
        exact List.length_eq_zero.mp hp
      have hnone : ∀ g' ∈ gs, (g'.name == n) = false := by
        intro g' hg'
        have := List.filter_eq_nil_iff.mp hrest g' hg'
        simpa using this
      rw [List.map_cons, List.filter_cons]
      rw [if_pos (by simp [parseFlag_hidden, hghid])]
      rw [List.map_cons, List.filter_cons]
      rw [if_pos (by simp [convertFlag_name, convertFlag_inKind, parseFlag_name, hgn])]
      rw [List.map_cons]
      rw [persistent_params_filter_nil gs opts n hnone]
      simp [convertFlag_scope]
    · have hp' : (gs.filter (fun g => g.name == n)).length = 1 := by
        rwa [List.filter_cons, if_neg hgn] at hp
      have hh' : ∀ g' ∈ gs, g'.name = n → g'.hidden = false :=
        fun g' hg' => hh g' (by simp [hg'])
      by_cases hhid : (opts.includeHidden || !g.hidden) = true
      · rw [List.map_cons, List.filter_cons]
        rw [if_pos (by simpa [parseFlag_hidden] using hhid)]
        rw [List.map_cons, List.filter_cons]
        rw [if_neg (by simp [convertFlag_name, convertFlag_inKind, parseFlag_name, hgn])]
        exact ih hp' hh'
      · rw [List.map_cons, List.filter_cons]
        rw [if_neg (by simpa [parseFlag_hidden] using hhid)]
        exact ih hp' hh'

theorem claim_C1_amended (d : CobraData) (parentPath : String) (opts : ConvertOptions)
    (n : String)
    (hl : ∀ f ∈ d.flags, f.name = n → f.changed = false)
    (hp : (d.persistentFlags.filter (fun g => g.name == n)).length = 1)
    (hh : ∀ g ∈ d.persistentFlags, g.name = n → g.hidden = false) :
    ((parseCommand d parentPath).flags.filter (fun f => f.name == n) = []) ∧
    (((convertCommand (parseCommand d parentPath) opts).parameters.filter
        (fun p => p.name == n && p.inKind == "flag")).map Parameter.scope = ["inherited"]) := by
  have hpex : d.persistentFlags.any (fun g => g.name == n) = true := by
    rcases List.length_eq_one.mp hp with ⟨g0, hg0⟩
    have hg : g0 ∈ d.persistentFlags.filter (fun g => g.name == n) := by rw [hg0]; simp
    rcases List.mem_filter.mp hg with ⟨hmem, hname⟩
    exact List.any_eq_true.mpr ⟨g0, hmem, hname⟩
  have hlocal : (localFlagInfos d.flags d.persistentFlags).filter
      (fun f => f.name == n) = [] := by
    unfold localFlagInfos
    rw [List.filter_map]
    apply List.map_eq_nil_iff.mpr
    rw [List.filter_filter]
    apply List.filter_eq_nil_iff.mpr
    intro f hf
    simp only [Function.comp, parseFlag_name, Bool.and_eq_true, beq_iff_eq, Bool.or_eq_true,
      Bool.not_eq_true', not_and]
    intro hfn hkeep
    rcases hkeep with hch | hany
    · rw [hl f hf hfn] at hch; exact Bool.false_ne_true hch
    · rw [hfn, hpex] at hany; simp at hany
  have hlocal' : ∀ fi ∈ localFlagInfos d.flags d.persistentFlags, (fi.name == n) = false := by
    intro fi hfi
    have := List.filter_eq_nil_iff.mp hlocal fi hfi
    simpa using this
  refine ⟨by simpa [parseCommand_flags] using hlocal, ?_⟩
  show ((((parseCommand d parentPath).flags.filter
      (fun f => opts.includeHidden || !f.hidden)).map (fun f => convertFlag f "local") ++
      (((parseCommand d parentPath).persistentFlags.filter
        (fun f => opts.includeHidden || !f.hidden)).map (fun f => convertFlag f "inherited")) ++
      ((parseCommand d parentPath).args.map convertArgument)).filter
        (fun p => p.name == n && p.inKind == "flag")).map Parameter.scope = ["inherited"]
  rw [List.filter_append, List.filter_append]
  have hA : (((parseCommand d parentPath).flags.filter
      (fun f => opts.includeHidden || !f.hidden)).map (fun f => convertFlag f "local")).filter
        (fun p => p.name == n && p.inKind == "flag") = [] := by
    rw [List.filter_map]
    apply List.map_eq_nil_iff.mpr
    apply List.filter_eq_nil_iff.mpr
    intro f hf
    rcases List.mem_filter.mp hf with ⟨hf0, _⟩
    have hne := hlocal' f (by simpa [parseCommand_flags] using hf0)
    simp only [Function.comp, convertFlag_name, convertFlag_inKind, Bool.and_eq_true, not_and]
    intro h1 _
    rw [hne] at h1; exact Bool.false_ne_true h1
  have hC : (((parseCommand d parentPath).args.map convertArgument).filter
      (fun p => p.name == n && p.inKind == "flag")) = [] := by
    rw [List.filter_map]
    apply List.map_eq_nil_iff.mpr
    apply List.filter_eq_nil_iff.mpr
    intro a _
    simp only [Function.comp, convertArgument_inKind, Bool.and_eq_true, not_and]
    intro _ hbad
    simp at hbad
  rw [hA, hC, parseCommand_persistentFlags]
  rw [List.map_append, List.map_append]
  rw [persistent_params_scope d.persistentFlags opts n hp hh]
  simp

/-- The same doubly-declared flag with `Changed = false`, for the witness. -/
def c1CleanFlag : PFlag := { c1ChangedFlag with changed := false }

/-- Witness node: an unchanged flag declared both locally and persistently. -/
def c1CleanData : CobraData :=
  { blankData with use := "app", flags := [c1CleanFlag], persistentFlags := [c1CleanFlag] }

theorem claim_C1_witness :
    ((parseCommand c1CleanData "").flags.filter (fun f => f.name == "verbose") = []) ∧
    (((convertCommand (parseCommand c1CleanData "") DefaultConvertOptions).parameters.filter
        (fun p => p.name == "verbose" && p.inKind == "flag")).map Parameter.scope
      = ["inherited"]) :=
  claim_C1_amended c1CleanData "" DefaultConvertOptions "verbose"
    (by decide) (by decide) (by decide)

/- ------------------------------------------------------------------ -/
/- Tree-level machinery for the Parse claims.                          -/
/- ------------------------------------------------------------------ -/

mutual

/-- The hierarchical paths of every node reachable from `c` (including
`c` itself) when its subtree hangs under `parentPath`.  This is the
specification-side description of reachability used by Claim C9. -/
def nodePaths : CobraCommand → String → List String
  | .node d subs, parentPath =>
    let q := buildPath parentPath (cobraName d.use)
    q :: nodePathsForest subs q

/-- The node paths of a subcommand forest. -/
def nodePathsForest : List CobraCommand → String → List String
  | [], _ => []
  | c :: cs, q => nodePaths c q ++ nodePathsForest cs q

end

mutual

/-- The (parent, child) pairs of parsed `CommandInfo` records produced
by `parseSubcommands` under `parentPath`: each child is parsed with its
parent's path, exactly as `parseCommand(subCmd, parentInfo,
parentInfo.Path)` does. -/
def parsedEdges : CobraCommand → String → List (CommandInfo × CommandInfo)
  | .node d subs, parentPath =>
    let info := parseCommand d parentPath
    subs.map (fun s => (info, parseCommand s.data info.path)) ++
      parsedEdgesForest subs info.path

/-- The parsed parent-child pairs of a subcommand forest. -/
def parsedEdgesForest : List CobraCommand → String → List (CommandInfo × CommandInfo)
  | [], _ => []
  | c :: cs, q => parsedEdges c q ++ parsedEdgesForest cs q

end

/-- A sane command name: nonempty and free of the path separator. -/
def cleanName (n : String) : Bool := !(n == "") && !(n.data.contains '/')

mutual

/-- Every node of the tree has a sane name. -/
def cleanTree : CobraCommand → Bool
  | .node d subs => cleanName (cobraName d.use) && cleanForest subs

/-- Every node of the forest has a sane name. -/
def cleanForest : List CobraCommand → Bool
  | [] => true
  | c :: cs => cleanTree c && cleanForest cs

end

lemma cleanForest_mem : ∀ {cs : List CobraCommand}, cleanForest cs = true →
    ∀ c ∈ cs, cleanTree c = true := by
  intro cs
  induction cs with
  | nil => intro _ c hc; cases hc
  | cons c cs ih =>
    intro h x hx
    rw [cleanForest, Bool.and_eq_true] at h
    rcases List.mem_cons.mp hx with rfl | hx'
    · exact h.1
    · exact ih h.2 x hx'

mutual

theorem parsedEdges_path : ∀ (c : CobraCommand) (q : String), cleanTree c = true →
    ∀ e ∈ parsedEdges c q, e.2.path = e.1.path ++ "/" ++ e.2.name
  | .node d subs, q, hc, e, he => by
    rw [cleanTree, Bool.and_eq_true] at hc
    rw [parsedEdges] at he
    rcases List.mem_append.mp he with h1 | h2
    · rcases List.mem_map.mp h1 with ⟨s, hs, rfl⟩
      have hsclean := cleanForest_mem hc.2 s hs
      have hn : ¬ cobraName s.data.use = "" := by
        obtain ⟨d', subs'⟩ := s
        rw [cleanTree, Bool.and_eq_true] at hsclean
        have := hsclean.1
        rw [cleanName, Bool.and_eq_true] at this
        simpa [CobraCommand.data] using this.1
      have hq : ¬ (parseCommand d q).path = "" := by
        rw [parseCommand_path]
        apply buildPath_ne_empty
        rw [cleanName, Bool.and_eq_true] at hc
        simpa using hc.1.1
      simp only [parseCommand_path, parseCommand_name]
      rw [buildPath_of_ne _ _ hn (by simpa using hq)]
    · exact parsedEdgesForest_path subs (parseCommand d q).path hc.2 e h2

theorem parsedEdgesForest_path : ∀ (cs : List CobraCommand) (q : String),
    cleanForest cs = true →
    ∀ e ∈ parsedEdgesForest cs q, e.2.path = e.1.path ++ "/" ++ e.2.name
  | [], _, _, e, he => by rw [parsedEdgesForest] at he; cases he
  | c :: cs, q, h, e, he => by
    rw [cleanForest, Bool.and_eq_true] at h
    rw [parsedEdgesForest] at he
    rcases List.mem_append.mp he with h1 | h2
    · exact parsedEdges_path c q h.1 e h1
    · exact parsedEdgesForest_path cs q h.2 e h2

end

/- ------------------------------------------------------------------ -/
/- Claim C4: path construction.                                        -/
/- ------------------------------------------------------------------ -/

/-- A root named "app" with an unnamed child (`Use` empty). -/
def c4EmptyChildTree : CobraCommand :=
  .node { blankData with use := "app" } [.node blankData []]

/-- Claim C4 (counterexample): an accepted tree whose child has an empty
name gives the child the parent's path unchanged, not the parent's path
plus a separator, refuting the path invariant for arbitrary accepted
trees. -/
theorem claim_C4_counterexample :
    ((parsedEdges c4EmptyChildTree "").map (fun e => (e.1.path, e.2.path, e.2.name))
      = [("app", "app", "")]) ∧
    ¬ ("app" : String) = "app" ++ "/" ++ "" := by
  exact ⟨by decide, by decide⟩

/-- Claim C4 (amended): on trees whose nodes all have nonempty,
separator-free names, the root's path is its own name, and every
parent-child pair produced by parsing satisfies `child.path =
parent.path ++ "/" ++ child.name`. -/
theorem claim_C4_amended (t : CobraCommand) (e : CommandInfo × CommandInfo)
    (h : cleanTree t = true) (he : e ∈ parsedEdges t "") :
    (parseCommand t.data "").path = (parseCommand t.data "").name ∧
    e.2.path = e.1.path ++ "/" ++ e.2.name := by
  constructor
  · rw [parseCommand_path, parseCommand_name, buildPath_empty_parent]
  · exact parsedEdges_path t "" h e he

/-- Witness tree for Claim C4: root "app" with child "user". -/
def c4CleanTree : CobraCommand :=
  .node { blankData with use := "app" } [.node { blankData with use := "user" } []]

/-- The single parsed edge of `c4CleanTree`. -/
def c4Edge : CommandInfo × CommandInfo :=
  (parseCommand { blankData with use := "app" } "",
   parseCommand { blankData with use := "user" } "app")

theorem claim_C4_witness :
    (parseCommand c4CleanTree.data "").path = (parseCommand c4CleanTree.data "").name ∧
    c4Edge.2.path = c4Edge.1.path ++ "/" ++ c4Edge.2.name :=
  claim_C4_amended c4CleanTree c4Edge (by decide) (by decide)

/- ------------------------------------------------------------------ -/
/- Claim C9: flat-map keys are exactly the reachable paths.            -/
/- ------------------------------------------------------------------ -/

mutual

theorem parseSubtree_fst : ∀ (c : CobraCommand) (q : String),
    (parseSubtree c q).map Prod.fst = nodePaths c q
  | .node d subs, q => by
    rw [parseSubtree, nodePaths]
    simp only [List.map_cons, parseCommand_path]
    rw [parseForest_fst subs _]

theorem parseForest_fst : ∀ (cs : List CobraCommand) (q : String),
    (parseForest cs q).map Prod.fst = nodePathsForest cs q
  | [], _ => by rw [parseForest, nodePathsForest]; rfl
  | c :: cs, q => by
    rw [parseForest, nodePathsForest, List.map_append, parseSubtree_fst c q,
      parseForest_fst cs q]

end

lemma goInsert_keys_mem {α : Type} (m : List (String × α)) (k : String) (v : α) (x : String) :
    x ∈ (goInsert m k v).map Prod.fst ↔ x ∈ m.map Prod.fst ∨ x = k := by
  by_cases hx : x = k
  · subst hx; simp [goInsert]
  · simp only [goInsert, List.map_append, List.mem_append, List.map_cons, List.map_nil,
      List.mem_singleton, hx, or_false]
    simp only [List.mem_map, List.mem_filter]
    constructor
    · rintro ⟨e, ⟨he, _⟩, rfl⟩
      exact ⟨e, he, rfl⟩
    · rintro ⟨e, he, rfl⟩
      exact ⟨e, ⟨he, by simpa using hx⟩, rfl⟩

lemma goMapOfList_keys_mem {α : Type} (l : List (String × α)) (x : String) :
    x ∈ (goMapOfList l).map Prod.fst ↔ x ∈ l.map Prod.fst := by
  suffices h : ∀ acc : List (String × α),
      (x ∈ ((l.foldl (fun m e => goInsert m e.1 e.2) acc).map Prod.fst) ↔
        x ∈ acc.map Prod.fst ∨ x ∈ l.map Prod.fst) by
    simpa [goMapOfList] using h []
  induction l with
  | nil => intro acc; simp
  | cons e es ih =>
    intro acc
    rw [List.foldl_cons, ih (goInsert acc e.1 e.2)]
    rw [goInsert_keys_mem]
    simp only [List.map_cons, List.mem_cons]
    tauto

lemma goInsert_keys_nodup {α : Type} (m : List (String × α)) (k : String) (v : α)
    (h : (m.map Prod.fst).Nodup) : ((goInsert m k v).map Prod.fst).Nodup := by
  simp only [goInsert, List.map_append, List.map_cons, List.map_nil]
  rw [List.nodup_append]
  refine ⟨?_, List.nodup_singleton k, ?_⟩
  · exact h.sublist (List.Sublist.map Prod.fst (List.filter_sublist m))
  · intro a ha hb
    rcases List.mem_map.mp ha with ⟨e, he, rfl⟩
    rcases List.mem_filter.mp he with ⟨_, hne⟩
    simp only [List.mem_singleton] at hb
    simp [hb] at hne

lemma goMapOfList_keys_nodup {α : Type} (l : List (String × α)) :
    ((goMapOfList l).map Prod.fst).Nodup := by
  suffices h : ∀ acc : List (String × α), (acc.map Prod.fst).Nodup →
      (((l.foldl (fun m e => goInsert m e.1 e.2) acc).map Prod.fst)).Nodup by
    exact h [] (by simp)
  induction l with
  | nil => intro acc hacc; simpa using hacc
  | cons e es ih =>
    intro acc hacc
    rw [List.foldl_cons]
    exact ih _ (goInsert_keys_nodup acc e.1 e.2 hacc)

/-- Claim C9: the key set of the flat command map produced by `Parse`
has no duplicates, and a string is a key exactly when it is the path of
a node reachable from the root (root included). -/
theorem claim_C9 (t : CobraCommand) :
    ((Parse t).commands.map Prod.fst).Nodup ∧
    (∀ k : String, k ∈ (Parse t).commands.map Prod.fst ↔ k ∈ nodePaths t "") := by
  constructor
  · exact goMapOfList_keys_nodup (parseSubtree t "")
  · intro k
    show k ∈ (goMapOfList (parseSubtree t "")).map Prod.fst ↔ k ∈ nodePaths t ""
    rw [goMapOfList_keys_mem, parseSubtree_fst]

/- ------------------------------------------------------------------ -/
/- Claim C5: output-map key shapes.                                    -/
/- ------------------------------------------------------------------ -/

lemma goInsert_mem_subset {α : Type} {m : List (String × α)} {k : String} {v : α}
    {e : String × α} (h : e ∈ goInsert m k v) : e ∈ m ∨ e = (k, v) := by
  simp only [goInsert, List.mem_append, List.mem_singleton] at h
  rcases h with h | h
  · exact Or.inl (List.mem_filter.mp h).1
  · exact Or.inr h

lemma goMapOfList_mem {α : Type} {l : List (String × α)} {e : String × α}
    (h : e ∈ goMapOfList l) : e ∈ l := by
  have h' : ∀ (l' acc : List (String × α)),
      e ∈ l'.foldl (fun m x => goInsert m x.1 x.2) acc → e ∈ acc ∨ e ∈ l' := by
    intro l'
    induction l' with
    | nil => intro acc ha; exact Or.inl ha
    | cons x xs ih =>
      intro acc ha
      rw [List.foldl_cons] at ha
      rcases ih (goInsert acc x.1 x.2) ha with h0 | h0
      · rcases goInsert_mem_subset h0 with h1 | h1
        · exact Or.inl h1
        · exact Or.inr (by simp [h1])
      · exact Or.inr (List.mem_cons_of_mem _ h0)
  rcases h' l [] h with h0 | h0
  · exact absurd h0 (List.not_mem_nil e)
  · exact h0

lemma parseCommand_path_data (d : CobraData) (q : String)
    (hn : ¬ cobraName d.use = "") (hq : ¬ q = "") :
    (parseCommand d q).path.data = q.data ++ '/' :: (cobraName d.use).data := by
  rw [parseCommand_path, buildPath_of_ne _ _ hn hq]
  simp [String.data_append]

mutual

theorem parseSubtree_shape : ∀ (c : CobraCommand) (q : String), cleanTree c = true →
    q.data ≠ [] →
    ∀ e ∈ parseSubtree c q,
      q.data.length < e.1.data.length ∧ e.1.data.head? = q.data.head? ∧
      e.2.name.data.length < e.1.data.length
  | .node d subs, q, hc, hq, e, he => by
    rw [cleanTree, Bool.and_eq_true] at hc
    have hn : ¬ cobraName d.use = "" := by
      have := hc.1
      rw [cleanName, Bool.and_eq_true] at this
      simpa using this.1
    have hq' : ¬ q = "" := string_data_ne_nil q hq
    have hdata := parseCommand_path_data d q hn hq'
    have hlen : q.data.length < (parseCommand d q).path.data.length := by
      rw [hdata]; simp
    have hhead : (parseCommand d q).path.data.head? = q.data.head? := by
      rw [hdata]
      cases hqd : q.data with
      | nil => exact absurd hqd hq
      | cons c cs => simp
    have hpne : (parseCommand d q).path.data ≠ [] := by
      rw [hdata]; simp
    rw [parseSubtree] at he
    rcases List.mem_cons.mp he with rfl | hrest
    · refine ⟨hlen, hhead, ?_⟩
      rw [parseCommand_name, hdata]
      simp only [List.length_append, List.length_cons]
      omega
    · have h' := parseForest_shape subs (parseCommand d q).path hc.2 hpne e hrest
      exact ⟨Nat.lt_trans hlen h'.1, h'.2.1.trans hhead, h'.2.2⟩

theorem parseForest_shape : ∀ (cs : List CobraCommand) (q : String),
    cleanForest cs = true → q.data ≠ [] →
    ∀ e ∈ parseForest cs q,
      q.data.length < e.1.data.length ∧ e.1.data.head? = q.data.head? ∧
      e.2.name.data.length < e.1.data.length
  | [], _, _, _, e, he => by rw [parseForest] at he; cases he
  | c :: cs, q, h, hq, e, he => by
    rw [cleanForest, Bool.and_eq_true] at h
    rw [parseForest] at he
    rcases List.mem_append.mp he with h1 | h2
    · exact parseSubtree_shape c q h.1 hq e h1
    · exact parseForest_shape cs q h.2 hq e h2

end

lemma convertKey_self (s : String) : convertKey s s = s := by
  simp [convertKey]

lemma convertKey_of_ne (path name : String) (h1 : goStartsWith path "/" = false)
    (h2 : ¬ path = name) : convertKey path name = "/" ++ path := by
  simp [convertKey, h1, h2]

/-- A tree whose root has an empty name: Parse accepts it, and its child
"user" gets path "user", equal to its own name. -/
def c5RootlessTree : CobraCommand :=
  .node blankData [.node { blankData with use := "user" } []]

/-- Claim C5 (counterexample): converting the parse of a tree with an
empty-named root yields the key "user" for the non-root command "user"
(no leading separator), because the key rule tests `path == name`, which
does not characterize the root on such trees. -/
theorem claim_C5_counterexample :
    ((Convert (some (Parse c5RootlessTree)) none).toOption.map
        (fun s => s.commands.map Prod.fst)) = some ["", "user"] ∧
    (Parse c5RootlessTree).rootCommand.path = "" ∧
    ¬ ("user" : String) = "/" ++ "user" := by
  exact ⟨by decide, by decide, by decide⟩

/-- Claim C5 (amended): on trees whose nodes all have nonempty
separator-free names, every entry of the parsed flat map is keyed in the
output by its path with a leading `/`, except the root entry (the one
whose path is the root's path), which is keyed by its bare name. -/
theorem claim_C5_amended (t : CobraCommand) (e : String × CommandInfo)
    (h : cleanTree t = true) (he : e ∈ (Parse t).commands) :
    convertKey e.1 e.2.name =
      if e.1 = (Parse t).rootCommand.path then e.2.name else "/" ++ e.1 := by
  obtain ⟨d, subs⟩ := t
  have he' : e ∈ parseSubtree (CobraCommand.node d subs) "" :=
    goMapOfList_mem (show e ∈ goMapOfList (parseSubtree (CobraCommand.node d subs) "") from he)
  rw [cleanTree, Bool.and_eq_true] at h
  have hn : ¬ cobraName d.use = "" := by
    have := h.1
    rw [cleanName, Bool.and_eq_true] at this
    simpa using this.1
  have hnos : '/' ∉ (cobraName d.use).data := by
    have := h.1
    rw [cleanName, Bool.and_eq_true] at this
    simpa using this.2
  have hrootpath : (Parse (CobraCommand.node d subs)).rootCommand.path
      = (parseCommand d "").path := rfl
  have hrootdata : (parseCommand d "").path.data = (cobraName d.use).data := by
    rw [parseCommand_path, buildPath_empty_parent]
  have hq0 : (parseCommand d "").path.data ≠ [] := by
    rw [hrootdata]
    intro hcon
    exact hn (string_eq_of_data _ _ (by simp [hcon]))
  simp only [parseSubtree] at he'
  rcases List.mem_cons.mp he' with rfl | hrest
  · dsimp only
    rw [if_pos hrootpath.symm]
    have hpn : (parseCommand d "").path = (parseCommand d "").name := by
      rw [parseCommand_path, parseCommand_name, buildPath_empty_parent]
    rw [hpn, convertKey_self]
  · obtain ⟨hlt, hhead, hname⟩ :=
      parseForest_shape subs (parseCommand d "").path h.2 hq0 e hrest
    have hne_root : ¬ e.1 = (Parse (CobraCommand.node d subs)).rootCommand.path := by
      intro hcon
      rw [hrootpath] at hcon
      rw [hcon] at hlt
      exact lt_irrefl _ hlt
    rw [if_neg hne_root]
    have hhq : (parseCommand d "").path.data.head? ≠ some '/' := by
      rw [hrootdata]
      cases hnd : (cobraName d.use).data with
      | nil => exact absurd (string_eq_of_data _ "" (by simp [hnd])) hn
      | cons c cs =>
        simp only [List.head?_cons, ne_eq, Option.some.injEq]
        intro hcon
        exact hnos (by rw [hnd, hcon]; exact List.mem_cons_self _ _)
    have hstart : goStartsWith e.1 "/" = false := by
      show listStartsWith "/".data e.1.data = false
      rw [show ("/" : String).data = ['/'] from rfl]
      apply listStartsWith_single_false
      rw [hhead]
      exact hhq
    have hne_name : ¬ e.1 = e.2.name := by
      intro hcon
      rw [hcon] at hname
      exact lt_irrefl _ hname
    rw [convertKey_of_ne e.1 e.2.name hstart hne_name]

/-- Witness tree for Claim C5: root "app" with child "user". -/
def c5CleanTree : CobraCommand :=
  .node { blankData with use := "app" } [.node { blankData with use := "user" } []]

/-- The parsed child entry of `c5CleanTree`. -/
def c5Entry : String × CommandInfo :=
  ("app/user", parseCommand { blankData with use := "user" } "app")

theorem claim_C5_witness :
    convertKey c5Entry.1 c5Entry.2.name =
      if c5Entry.1 = (Parse c5CleanTree).rootCommand.path then c5Entry.2.name
      else "/" ++ c5Entry.1 :=
  claim_C5_amended c5CleanTree c5Entry (by decide) (by decide)

/- ------------------------------------------------------------------ -/
/- Claim C6: which commands are omitted from the output map.           -/
/- ------------------------------------------------------------------ -/

lemma convertCommandsMap_keys_mem (cmds : List (String × CommandInfo))
    (opts : ConvertOptions) (k : String) :
    k ∈ (convertCommandsMap cmds opts).map Prod.fst ↔
      ∃ e ∈ cmds, skipCommand e.2 opts = false ∧ convertKey e.1 e.2.name = k := by
  have h' : ∀ (l : List (String × CommandInfo)) (acc : List (String × SpecCommand)),
      (k ∈ ((l.foldl (fun acc e => if skipCommand e.2 opts then acc
          else goInsert acc (convertKey e.1 e.2.name) (convertCommand e.2 opts)) acc).map
            Prod.fst) ↔
        k ∈ acc.map Prod.fst ∨
          ∃ e ∈ l, skipCommand e.2 opts = false ∧ convertKey e.1 e.2.name = k) := by
    intro l
    induction l with
    | nil => intro acc; simp
    | cons x xs ih =>
      intro acc
      rw [List.foldl_cons]
      by_cases hsk : skipCommand x.2 opts = true
      · rw [if_pos hsk, ih acc]
        constructor
        · rintro (h | h)
          · exact Or.inl h
          · exact Or.inr (by rcases h with ⟨e, he, hs, hk⟩; exact ⟨e, by simp [he], hs, hk⟩)
        · rintro (h | ⟨e, he, hs, hk⟩)
          · exact Or.inl h
          · rcases List.mem_cons.mp he with rfl | he'
            · rw [hsk] at hs; cases hs
            · exact Or.inr ⟨e, he', hs, hk⟩
      · rw [if_neg hsk, ih _, goInsert_keys_mem]
        rw [Bool.not_eq_true] at hsk
        constructor
        · rintro ((h | h) | h)
          · exact Or.inl h
          · exact Or.inr ⟨x, by simp, hsk, h.symm⟩
          · rcases h with ⟨e, he, hs, hk⟩
            exact Or.inr ⟨e, by simp [he], hs, hk⟩
        · rintro (h | ⟨e, he, hs, hk⟩)
          · exact Or.inl (Or.inl h)
          · rcases List.mem_cons.mp he with rfl | he'
            · exact Or.inl (Or.inr hk.symm)
            · exact Or.inr ⟨e, he', hs, hk⟩
  simpa [convertCommandsMap] using h' cmds []

/-- Claim C6 (amended): provided distinct commands of the flat map get
distinct output keys (true, e.g., for trees parsed from nonempty
separator-free names), a command is entirely absent from the output map
exactly when it is hidden with `includeHidden=false` or deprecated with
`includeDeprecated=false`; the two policies act independently. -/
theorem claim_C6_amended (p : ParsedCLI) (opts : ConvertOptions) (e : String × CommandInfo)
    (hinj : ∀ e1 ∈ p.commands, ∀ e2 ∈ p.commands,
      convertKey e1.1 e1.2.name = convertKey e2.1 e2.2.name → e1.1 = e2.1)
    (hkeys : (p.commands.map Prod.fst).Nodup)
    (he : e ∈ p.commands) :
    (∀ s, Convert (some p) (some opts) = .ok s →
      s.commands = convertCommandsMap p.commands opts) ∧
    (¬ convertKey e.1 e.2.name ∈ (convertCommandsMap p.commands opts).map Prod.fst
      ↔ ((e.2.hidden = true ∧ opts.includeHidden = false) ∨
         (¬ e.2.deprecated = "" ∧ opts.includeDeprecated = false))) := by
  constructor
  · intro s hs
    cases hm : p.metadata with
    | none => rw [Convert] at hs; rw [hm] at hs; cases hs
    | some md =>
      rw [Convert] at hs
      rw [hm] at hs
      cases hs
      rfl
  · rw [convertCommandsMap_keys_mem]
    constructor
    · intro hna
      by_cases hsk : skipCommand e.2 opts = true
      · rw [skipCommand, Bool.or_eq_true, Bool.and_eq_true, Bool.and_eq_true] at hsk
        rcases hsk with ⟨h1, h2⟩ | ⟨h1, h2⟩
        · exact Or.inl ⟨h2, by simpa using h1⟩
        · exact Or.inr ⟨by simpa using h2, by simpa using h1⟩
      · exact absurd ⟨e, he, Bool.not_eq_true _ ▸ hsk, rfl⟩ hna
    · rintro hcase ⟨e', he', hs', hk'⟩
      have hskip : skipCommand e.2 opts = true := by
        rw [skipCommand, Bool.or_eq_true, Bool.and_eq_true, Bool.and_eq_true]
        rcases hcase with ⟨h1, h2⟩ | ⟨h1, h2⟩
        · exact Or.inl ⟨by simpa using h2, h1⟩
        · exact Or.inr ⟨by simpa using h2, by simpa using h1⟩
      have hfst : e'.1 = e.1 := hinj e' he' e he hk'
      have : e' = e := List.inj_on_of_nodup_map hkeys he' he hfst
      rw [this, hskip] at hs'
      cases hs'

/-- The grandchild "b" under "a": parsed path "a/b". -/
def c6GcData : CobraData := { blankData with use := "b", short := "GC" }

/-- A tree Parse accepts whose key assignment collides: the root is
unnamed, the grandchild "a"/"b" gets key "/a/b", and the child named
"/a/b" also gets key "/a/b" (its path equals its name). -/
def c6CollideTree : CobraCommand :=
  .node blankData
    [.node { blankData with use := "a" } [.node c6GcData []],
     .node { blankData with use := "/a/b", short := "C2" } []]

/-- Claim C6 (counterexample): the grandchild (summary "GC") is neither
hidden nor deprecated, yet it is entirely absent from the output map:
its key "/a/b" is taken over by the equally-keyed command "C2", so
absence is not equivalent to the hidden/deprecated policy tests. -/
theorem claim_C6_counterexample :
    ((Convert (some (Parse c6CollideTree)) none).toOption.map
        (fun s => s.commands.map (fun e => (e.1, e.2.summary))))
      = some [("", ""), ("a", ""), ("/a/b", "C2")] ∧
    ("a/b", parseCommand c6GcData "a") ∈ (Parse c6CollideTree).commands ∧
    (parseCommand c6GcData "a").hidden = false ∧
    (parseCommand c6GcData "a").deprecated = "" ∧
    (convertCommand (parseCommand c6GcData "a") DefaultConvertOptions).summary = "GC" := by
  exact ⟨by decide, by decide, by decide, by decide, by decide⟩

/-- Sample model for the C6 witness: a visible root and a hidden child. -/
def c6InfoA : CommandInfo := { blankInfo with name := "app", path := "app" }

/-- The hidden child command of the C6 witness model. -/
def c6InfoHidden : CommandInfo :=
  { blankInfo with name := "x", path := "app/x", hidden := true }

/-- The C6 witness model. -/
def c6SampleCLI : ParsedCLI :=
  { rootCommand := c6InfoA
    commands := [("app", c6InfoA), ("app/x", c6InfoHidden)]
    metadata := some { name := "app", version := "1.0.0", description := "", author := ""
                       license := "", homepage := "", repository := "", envVars := []
                       platforms := [], tags := [] }
    frameworkData := [] }

theorem claim_C6_witness :
    ¬ convertKey "app/x" c6InfoHidden.name ∈
        (convertCommandsMap c6SampleCLI.commands DefaultConvertOptions).map Prod.fst
      ↔ ((c6InfoHidden.hidden = true ∧ DefaultConvertOptions.includeHidden = false) ∨
         (¬ c6InfoHidden.deprecated = "" ∧ DefaultConvertOptions.includeDeprecated = false)) :=
  (claim_C6_amended c6SampleCLI DefaultConvertOptions ("app/x", c6InfoHidden)
    (by decide) (by decide) (by decide)).2

/- ------------------------------------------------------------------ -/
/- Claim C8: component extraction.                                     -/
/- ------------------------------------------------------------------ -/

/-- The number of commands of the flat map whose local flags contain a
flag named `n`. -/
def commandsWithFlag (p : ParsedCLI) (n : String) : Nat :=
  (p.commands.filter (fun e => e.2.flags.any (fun f => f.name == n))).length

lemma countName_of_nodup (flags : List FlagInfo) (n : String)
    (h : (flags.map FlagInfo.name).Nodup) :
    countName flags n = if flags.any (fun f => f.name == n) then 1 else 0 := by
  have hcount : countName flags n = (flags.map FlagInfo.name).count n := by
    rw [countName, List.count_eq_countP, List.countP_map, List.countP_eq_length_filter]
    rfl
  by_cases hmem : n ∈ flags.map FlagInfo.name
  · rw [hcount, List.count_eq_one_of_mem h hmem, if_pos]
    rcases List.mem_map.mp hmem with ⟨f, hf, rfl⟩
    exact List.any_eq_true.mpr ⟨f, hf, by simp⟩
  · rw [hcount, List.count_eq_zero_of_not_mem hmem, if_neg]
    intro hany
    rcases List.any_eq_true.mp hany with ⟨f, hf, hfn⟩
    exact hmem (List.mem_map.mpr ⟨f, hf, by simpa using hfn⟩)

lemma countName_flatten (cmds : List (String × CommandInfo)) (n : String)
    (h : ∀ e ∈ cmds, (e.2.flags.map FlagInfo.name).Nodup) :
    countName ((cmds.map (fun e => e.2.flags)).flatten) n
      = (cmds.filter (fun e => e.2.flags.any (fun f => f.name == n))).length := by
  induction cmds with
  | nil => rfl
  | cons e es ih =>
    rw [List.map_cons, List.flatten_cons]
    rw [countName, List.filter_append, List.length_append]
    rw [List.filter_cons]
    have h1 := countName_of_nodup e.2.flags n (h e (by simp))
    rw [countName] at h1 ih
    rw [h1, ih (fun x hx => h x (by simp [hx]))]
    by_cases hany : e.2.flags.any (fun f => f.name == n) = true
    · rw [if_pos hany, if_pos hany]
      simp [Nat.add_comm]
    · rw [if_neg hany, if_neg hany]
      simp

lemma extract_params_keys (flags : List FlagInfo) (l : List String)
    (h : ∀ n' ∈ l, n' ∈ flags.map FlagInfo.name) :
    (l.filterMap (fun n' => if countName flags n' > 1 then
        (flags.find? (fun f => f.name == n')).map (fun f => (n', convertFlag f "local"))
      else none)).map Prod.fst
    = l.filter (fun n' => decide (countName flags n' > 1)) := by
  induction l with
  | nil => rfl
  | cons x xs ih =>
    have hx := h x (by simp)
    have hfind : ∃ f, flags.find? (fun f => f.name == x) = some f := by
      rw [← Option.isSome_iff_exists, List.find?_isSome]
      rcases List.mem_map.mp hx with ⟨f, hf, rfl⟩
      exact ⟨f, hf, by simp⟩
    rcases hfind with ⟨f0, hf0⟩
    rw [List.filterMap_cons, List.filter_cons]
    by_cases hc : countName flags x > 1
    · rw [if_pos hc, hf0, if_pos (by simpa using hc)]
      simp only [Option.map_some']
      rw [List.map_cons, ih (fun a ha => h a (by simp [ha]))]
    · rw [if_neg hc, if_neg (by simpa using hc)]
      exact ih (fun a ha => h a (by simp [ha]))

/-- Claim C8: with component extraction enabled, the shared parameter
table (which `Convert` attaches as the components section) holds a flag
name exactly once when the name occurs in the local flags of at least
two commands, and not at all otherwise; and the components section
always carries the two fixed generic responses.  (Local flag names are
assumed unique within each command, as pflag flag sets guarantee.) -/
theorem claim_C8 (p : ParsedCLI) (opts : ConvertOptions) (n : String)
    (hex : opts.extractComponents = true)
    (hnodup : ∀ e ∈ p.commands, (e.2.flags.map FlagInfo.name).Nodup) :
    (∀ s, Convert (some p) (some opts) = .ok s →
      s.components = some (extractComponents p opts)) ∧
    (((extractComponents p opts).parameters.map Prod.fst).count n
      = if 2 ≤ commandsWithFlag p n then 1 else 0) ∧
    ((extractComponents p opts).responses =
      [("Success", { description := "Operation completed successfully"
                     content := [("text/plain", { exampleText := "Success" })] }),
       ("Error", { description := "Operation failed"
                   content := [("text/plain", { exampleText := "Error: operation failed" })] })]) := by
  refine ⟨?_, ?_, rfl⟩
  · intro s hs
    cases hm : p.metadata with
    | none => rw [Convert, hm] at hs; cases hs
    | some md =>
      rw [Convert, hm] at hs
      cases hs
      simp [hex]
  · have hkeys : (extractComponents p opts).parameters.map Prod.fst
        = (((p.commands.map (fun e => e.2.flags)).flatten.map (fun f => f.name)).dedup).filter
            (fun n' => decide (countName ((p.commands.map (fun e => e.2.flags)).flatten) n' > 1)) := by
      apply extract_params_keys
      intro n' hn'
      have := List.mem_dedup.mp hn'
      simpa using this
    rw [hkeys]
    have hnd : ((((p.commands.map (fun e => e.2.flags)).flatten.map (fun f => f.name)).dedup).filter
        (fun n' => decide (countName ((p.commands.map (fun e => e.2.flags)).flatten) n' > 1))).Nodup :=
      (List.nodup_dedup _).filter _
    have hcw : countName ((p.commands.map (fun e => e.2.flags)).flatten) n
        = commandsWithFlag p n := countName_flatten p.commands n hnodup
    by_cases hc : 2 ≤ commandsWithFlag p n
    · rw [if_pos hc]
      apply List.count_eq_one_of_mem hnd
      apply List.mem_filter.mpr
      constructor
      · apply List.mem_dedup.mpr
        have hpos : 0 < countName ((p.commands.map (fun e => e.2.flags)).flatten) n := by
          rw [hcw]; omega
        rw [countName, List.length_pos] at hpos
        rcases List.exists_mem_of_ne_nil _ hpos with ⟨f, hf⟩
        rcases List.mem_filter.mp hf with ⟨hf1, hf2⟩
        exact List.mem_map.mpr ⟨f, hf1, by simpa using hf2⟩
      · simp only [decide_eq_true_eq]
        rw [hcw]; omega
    · rw [if_neg hc]
      apply List.count_eq_zero_of_not_mem
      intro hmem
      rcases List.mem_filter.mp hmem with ⟨_, hpred⟩
      simp only [decide_eq_true_eq] at hpred
      rw [hcw] at hpred
      omega

/-- A local flag named "verbose", for the C8 witness. -/
def c8FlagV : FlagInfo :=
  { name := "verbose", shorthand := "v", usage := "", typeName := "bool", defaultValue := "false"
    required := false, hidden := false, deprecated := "", persistent := false
    validValues := [], annots := [] }

/-- C8 witness model: two commands sharing the local flag "verbose". -/
def c8SampleCLI : ParsedCLI :=
  { rootCommand := blankInfo
    commands := [("app", { blankInfo with name := "app", path := "app", flags := [c8FlagV] }),
                 ("app/x", { blankInfo with name := "x", path := "app/x", flags := [c8FlagV] })]
    metadata := some { name := "app", version := "1.0.0", description := "", author := ""
                       license := "", homepage := "", repository := "", envVars := []
                       platforms := [], tags := [] }
    frameworkData := [] }

theorem claim_C8_witness :
    ((extractComponents c8SampleCLI DefaultConvertOptions).parameters.map Prod.fst).count "verbose"
      = if 2 ≤ commandsWithFlag c8SampleCLI "verbose" then 1 else 0 :=
  (claim_C8 c8SampleCLI DefaultConvertOptions "verbose" rfl (by decide)).2.1
